import Mathlib

/-!
Shallow embedding of the receipt-summary extraction engine of the HDL OCR app
(src/src/App.js). Strings are modelled as lists of characters. Every number the
pipeline manipulates is produced by parseFloat or toFixed from decimal
numerals, so JavaScript numbers are modelled exactly as decimal rationals: a
mantissa over a power-of-ten scale (the Dec structure below), with NaN
modelled as the none case of Option. The function dval gives the rational
value of such a number.
-/

namespace HdlOcr

/-- An exact decimal number: the value m / 10 ^ e. -/
structure Dec where
  m : ℤ
  e : ℕ
deriving DecidableEq

/-- Rational value of a decimal number. -/
def dval (d : Dec) : ℚ := (d.m : ℚ) / 10 ^ d.e

/-- Row type tag: the code stores the strings "Credit Sale" and "Tip". -/
inductive RowType where
  | creditSale
  | tip
deriving DecidableEq

/-- One ccData row. The code stores the amount as the string produced by
toFixed(2); we model the numeric value that string denotes (what parseFloat
recovers at aggregation time), with none standing for NaN. -/
structure Row where
  type : RowType
  amount : Option Dec
deriving DecidableEq

/-- ASCII decimal digit test, the regex class backslash-d. -/
def isDigit (c : Char) : Bool := '0' ≤ c && c ≤ '9'

/-- The JavaScript whitespace class (regex backslash-s, also the set trimmed by
String.prototype.trim): ASCII whitespace plus the Unicode space characters. -/
def isWs (c : Char) : Bool :=
  c = ' ' || c = '\t' || c = '\n' || c = '\r' || c = '\x0b' || c = '\x0c' ||
  c.toNat = 0xa0 || c.toNat = 0x1680 || (0x2000 ≤ c.toNat && c.toNat ≤ 0x200a) ||
  c.toNat = 0x2028 || c.toNat = 0x2029 || c.toNat = 0x202f || c.toNat = 0x205f ||
  c.toNat = 0x3000 || c.toNat = 0xfeff

/-- The character class [Backslash-d,.] used by the Strategy A capture group. -/
def isMoneyCls (c : Char) : Bool := isDigit c || c = ',' || c = '.'

/-- Value of a digit list read in base 10. -/
def digitsVal (ds : List Char) : Nat := ds.foldl (fun a c => 10 * a + (c.toNat - 48)) 0

/-- Exponent of a decimal literal after the marker letter: optional sign then
digits; an incomplete exponent is not part of the longest valid prefix, so it
contributes zero. -/
def expOfSigned (s : List Char) : ℤ :=
  let sgnRest : ℤ × List Char :=
    match s with
    | '-' :: t => (-1, t)
    | '+' :: t => (1, t)
    | _ => (1, s)
  let ds := sgnRest.2.takeWhile isDigit
  if ds = [] then 0 else sgnRest.1 * (digitsVal ds : ℤ)

/-- Dispatch on the exponent marker letter. -/
def expOf : List Char → ℤ
  | 'e' :: rest => expOfSigned rest
  | 'E' :: rest => expOfSigned rest
  | _ => 0

/-- Scale a decimal number by 10 to a signed power. -/
def applyExp (d : Dec) (z : ℤ) : Dec :=
  if 0 ≤ z then ⟨d.m * 10 ^ z.toNat, d.e⟩ else ⟨d.m, d.e + (-z).toNat⟩

/-- Model of the JavaScript parseFloat builtin over exact decimals: skip
leading whitespace, read an optional sign, then the longest prefix that is a
decimal literal (digits with optional fraction, or a fraction alone, with an
optional exponent); when no valid prefix exists the result is NaN, modelled as
none. The Infinity form is omitted: every call site in this program passes
strings built from digits, dots, commas, dollar signs and minus signs, so it
cannot arise. -/
def jsParseFloat (s : List Char) : Option Dec :=
  let s0 := s.dropWhile isWs
  let sgnRest : ℤ × List Char :=
    match s0 with
    | '-' :: t => (-1, t)
    | '+' :: t => (1, t)
    | _ => (1, s0)
  let s1 := sgnRest.2
  let intD := s1.takeWhile isDigit
  let s2 := s1.drop intD.length
  if intD = [] then
    match s2 with
    | '.' :: t =>
      let fd := t.takeWhile isDigit
      if fd = [] then none
      else some (applyExp ⟨sgnRest.1 * (digitsVal fd : ℤ), fd.length⟩ (expOf (t.drop fd.length)))
    | _ => none
  else
    match s2 with
    | '.' :: t =>
      let fd := t.takeWhile isDigit
      some (applyExp
        ⟨sgnRest.1 * ((digitsVal intD : ℤ) * 10 ^ fd.length + (digitsVal fd : ℤ)), fd.length⟩
        (expOf (t.drop fd.length)))
    | _ => some (applyExp ⟨sgnRest.1 * (digitsVal intD : ℤ), 0⟩ (expOf s2))

/-- JavaScript String.prototype.trim. -/
def trimJs (s : List Char) : List Char := ((s.dropWhile isWs).reverse.dropWhile isWs).reverse

/-- The moneyToFloat helper (App.js line 33): delete every dollar sign and
comma, trim, replace the empty string by "0" (the falsy-or idiom), then
parseFloat. -/
def moneyToFloat (s : List Char) : Option Dec :=
  let stripped := s.filter (fun c => !(c = '$' || c = ','))
  let t := trimJs stripped
  jsParseFloat (if t = [] then ['0'] else t)

/-- Match a literal given in lowercase against the head of the text,
case-insensitively, returning the remaining text. -/
def dropLitCI : List Char → List Char → Option (List Char)
  | [], s => some s
  | _ :: _, [] => none
  | p :: ps, c :: cs => if Char.toLower c = p then dropLitCI ps cs else none

/-- Greedy backtracking choice for the capture group of the Strategy A regexes
inside the maximal money-class run r: the largest k with at least one class
character before position k, a dot at k, and digits at k+1 and k+2. -/
def findDotK (r : List Char) : Option Nat :=
  (List.range r.length).reverse.find? (fun k =>
    decide (1 ≤ k) && (r.get? k == some '.')
      && (Option.any isDigit (r.get? (k+1)))
      && (Option.any isDigit (r.get? (k+2))))

/-- Consume the optional dollar sign. -/
def dropOptDollar : List Char → List Char
  | '$' :: t => t
  | s => s

/-- Attempt the Strategy A pattern (the label literal, optional whitespace, the
literal us, an optional dollar sign, optional whitespace, then the capture
group of money-class characters ending in a dot and two digits) at the head of
the text; on success return the captured numeral and the rest of the text. -/
def matchLabelNumAt (label : List Char) (s : List Char) : Option (List Char × List Char) :=
  match dropLitCI label s with
  | none => none
  | some s1 =>
    match dropLitCI ['u', 's'] (s1.dropWhile isWs) with
    | none => none
    | some s3 =>
      match findDotK (((dropOptDollar s3).dropWhile isWs).takeWhile isMoneyCls) with
      | none => none
      | some k =>
        some ((((dropOptDollar s3).dropWhile isWs).takeWhile isMoneyCls).take (k+3),
          ((dropOptDollar s3).dropWhile isWs).drop (k+3))

/-- Global scan of matchAll: try the pattern at each position, and after a
match continue right after it. Fuel bounds the recursion; the initial fuel of
one unit per character always suffices because every step consumes at least
one character. -/
def scanLabelAux (label : List Char) : Nat → List Char → List (List Char)
  | 0, _ => []
  | _ + 1, [] => []
  | n + 1, c :: cs =>
    match matchLabelNumAt label (c :: cs) with
    | some (g, rest) => g :: scanLabelAux label n rest
    | none => scanLabelAux label n cs

/-- All captured groups of text.matchAll for a Strategy A pattern. -/
def scanLabel (label : List Char) (s : List Char) : List (List Char) :=
  scanLabelAux label s.length s

/-- Captured numerals of the totalRegex (App.js line 57). -/
def scanTotals (s : List Char) : List (List Char) := scanLabel ("total".toList) s

/-- Captured numerals of the tipRegex (App.js line 58). -/
def scanTips (s : List Char) : List (List Char) := scanLabel ("tip".toList) s

/-- Attempt the Strategy B money token pattern (an optional dollar sign, then
either digits, a dot and one or two fraction digits, or digits alone) at the
head of the text; on success return the full match and the rest. The
alternation tries the fractional form first, exactly as the regex on App.js
line 90. -/
def matchMoneyAt (s : List Char) : Option (List Char × List Char) :=
  let pre : List Char × List Char :=
    match s with
    | '$' :: t => (['$'], t)
    | _ => ([], s)
  let d1 := pre.2.takeWhile isDigit
  if d1 = [] then none
  else
    let s2 := pre.2.drop d1.length
    match s2 with
    | '.' :: t =>
      let fd := (t.takeWhile isDigit).take 2
      if fd = [] then some (pre.1 ++ d1, s2)
      else some (pre.1 ++ d1 ++ '.' :: fd, t.drop fd.length)
    | _ => some (pre.1 ++ d1, s2)

/-- Global scan of line.match for the money token pattern, fuelled like the
Strategy A scanner. -/
def scanMoneyAux : Nat → List Char → List (List Char)
  | 0, _ => []
  | _ + 1, [] => []
  | n + 1, c :: cs =>
    match matchMoneyAt (c :: cs) with
    | some (m, rest) => m :: scanMoneyAux n rest
    | none => scanMoneyAux n cs

/-- All full matches of the money token pattern in a line. -/
def scanMoney (s : List Char) : List (List Char) := scanMoneyAux s.length s

/-- text.split with the newline separator. -/
def splitNl : List Char → List (List Char)
  | [] => [[]]
  | c :: t =>
    if c = '\n' then [] :: splitNl t
    else
      match splitNl t with
      | [] => [[c]]
      | l :: ls => (c :: l) :: ls

/-- Lowercasing a line, as line.toLowerCase() on the ASCII letters the
keywords consist of. -/
def lowerL (s : List Char) : List Char := s.map Char.toLower

/-- Prefix test on character lists. -/
def startsWithL : List Char → List Char → Bool
  | [], _ => true
  | _ :: _, [] => false
  | a :: as, b :: bs => a = b && startsWithL as bs

/-- Substring test, the semantics of String.prototype.includes. -/
def containsSub (needle : List Char) : List Char → Bool
  | [] => needle.isEmpty
  | c :: cs => startsWithL needle (c :: cs) || containsSub needle cs

/-- m.replace with a plain string pattern replaces only the first occurrence:
delete the first dollar sign, if any. -/
def removeFirstDollar : List Char → List Char
  | [] => []
  | c :: t => if c = '$' then t else c :: removeFirstDollar t

/-- Model of amt.toFixed(2) followed by the parseFloat the aggregator applies
to the stored string: round the value m / 10 ^ e to cents with ties toward
positive infinity, per the specification of Number.prototype.toFixed; the
rounded cent count is the floor of (100 m / 10 ^ e) + 1 / 2, computed here by
integer floor division; NaN stays NaN. -/
def fix2 : Option Dec → Option Dec
  | none => none
  | some d => some ⟨(200 * d.m + 10 ^ d.e).fdiv (2 * 10 ^ d.e), 2⟩

/-- Whether the lowercased line contains the tip keyword (isTipLine,
App.js line 107). -/
def isTipL (line : List Char) : Bool := containsSub ("tip".toList) (lowerL line)

/-- The keyword guard of Strategy B (App.js lines 96-101). -/
def qualifies (line : List Char) : Bool :=
  let lo := lowerL line
  containsSub ("credit".toList) lo || containsSub ("card".toList) lo
    || containsSub ("charge".toList) lo || containsSub ("tip".toList) lo

/-- The lines Strategy B iterates over: split on newlines, trim each line,
keep the non-empty ones (App.js line 91). -/
def linesOf (text : List Char) : List (List Char) :=
  ((splitNl text).map trimJs).filter (fun l => !l.isEmpty)

/-- One entry of the intermediate results array of Strategy B. -/
structure BEntry where
  lineText : List Char
  amounts : List (Option Dec)
  tipLine : Bool

/-- First Strategy B loop (App.js lines 94-111): for every qualifying line
whose match is not null, push an entry holding the parsed amounts and the tip
flag. -/
def collectResults (lines : List (List Char)) : List BEntry :=
  lines.foldl (fun acc line =>
    if qualifies line then
      let ms := scanMoney line
      if ms.isEmpty then acc
      else acc ++ [{ lineText := line
                     amounts := ms.map (fun m => jsParseFloat (removeFirstDollar m))
                     tipLine := isTipL line }]
    else acc) []

/-- Second Strategy B loop (App.js lines 114-122): one row per amount, typed
by the line's tip flag. -/
def strategyB (text : List Char) : List Row :=
  (collectResults (linesOf text)).foldl (fun acc e =>
    acc ++ e.amounts.map (fun a =>
      { type := if e.tipLine then RowType.tip else RowType.creditSale
        amount := fix2 a })) []

/-- Declarative per-line record list used to state order preservation and
classification: the money tokens of a qualifying line, in order, each giving
one row. -/
def lineRecords (line : List Char) : List Row :=
  if qualifies line then
    (scanMoney line).map (fun m =>
      { type := if isTipL line then RowType.tip else RowType.creditSale
        amount := fix2 (jsParseFloat (removeFirstDollar m)) })
  else []

/-- Strategy A row construction loop (App.js lines 66-85): iterate i from 0
to max of the two lengths, pushing a sale row when a total exists at i and a
tip row when a tip exists at i. -/
def buildRows (totals tips : List (Option Dec)) : List Row :=
  (List.range (max totals.length tips.length)).foldl (fun acc i =>
    let acc1 := match totals.get? i with
      | some t => acc ++ [{ type := RowType.creditSale, amount := fix2 t }]
      | none => acc
    match tips.get? i with
    | some p => acc1 ++ [{ type := RowType.tip, amount := fix2 p }]
    | none => acc1) []

/-- The extraction pipeline of handleFileChange (App.js lines 56-125): collect
and normalize the Strategy A matches; if either list is non-empty build the
interleaved rows, otherwise run the keyword-line fallback. -/
def extractL (text : List Char) : List Row :=
  let totals := (scanTotals text).map moneyToFloat
  let tips := (scanTips text).map moneyToFloat
  if 0 < totals.length || 0 < tips.length then buildRows totals tips
  else strategyB text

/-- String-level wrapper of the extractor. -/
def extractS (text : String) : List Row := extractL text.toList

/-- The component state a handler run writes. -/
structure HandlerState where
  ccData : List Row
  noDataFound : Bool
deriving DecidableEq

/-- State written by one successful handleFileChange run on OCR text. The check
on App.js line 128 reads the ccData captured by the closure at render time
(prev), not the row list just computed, because setCcData does not change the
local binding; noDataFound is therefore set exactly when prev is empty. -/
def runHandler (prev : List Row) (text : List Char) : HandlerState :=
  { ccData := extractL text
    noDataFound := prev.length == 0 }

/-- JavaScript addition at the aggregation step, with NaN propagation; the
finite case adds the two decimals over a common power-of-ten scale. -/
def addJs : Option Dec → Option Dec → Option Dec
  | some a, some b => some ⟨a.m * 10 ^ b.e + b.m * 10 ^ a.e, a.e + b.e⟩
  | _, _ => none

/-- totalSales (App.js lines 155-157): filter the sale rows and reduce their
amounts from 0. -/
def totalSales (rows : List Row) : Option Dec :=
  ((rows.filter (fun r => decide (r.type = RowType.creditSale))).map Row.amount).foldl
    addJs (some ⟨0, 0⟩)

/-- totalTips (App.js lines 159-161). -/
def totalTips (rows : List Row) : Option Dec :=
  ((rows.filter (fun r => decide (r.type = RowType.tip))).map Row.amount).foldl
    addJs (some ⟨0, 0⟩)

/-- One line's contribution to the first Strategy B loop: nothing unless the
line qualifies and has at least one money token, else a single entry. -/
def entryListOf (line : List Char) : List BEntry :=
  if qualifies line then
    if (scanMoney line).isEmpty then []
    else [{ lineText := line
            amounts := (scanMoney line).map (fun m => jsParseFloat (removeFirstDollar m))
            tipLine := isTipL line }]
  else []

/-- One entry's contribution to the second Strategy B loop. -/
def rowsOfEntry (e : BEntry) : List Row :=
  e.amounts.map (fun a =>
    { type := if e.tipLine then RowType.tip else RowType.creditSale
      amount := fix2 a })

/-- The paired example of the specification's property P6: sales 10.00 and
20.00, tips 1.50 and 3.00. -/
def exampleRows : List Row :=
  [⟨RowType.creditSale, some ⟨1000, 2⟩⟩, ⟨RowType.tip, some ⟨150, 2⟩⟩,
   ⟨RowType.creditSale, some ⟨2000, 2⟩⟩, ⟨RowType.tip, some ⟨300, 2⟩⟩]

set_option maxRecDepth 8000 in
/-- C1 counterexample: on a text with three totals (1.00, 3.00, 5.00) and two
tips (2.00, 4.00), the result is five interleaved rows rather than the two
pairs the claim promises, and the surplus third total does produce a record. -/
theorem C1_counterexample :
    extractS "Total US$ 1.00 Tip US$ 2.00 Total US$ 3.00 Tip US$ 4.00 Total US$ 5.00" =
      [⟨RowType.creditSale, some ⟨100, 2⟩⟩, ⟨RowType.tip, some ⟨200, 2⟩⟩,
       ⟨RowType.creditSale, some ⟨300, 2⟩⟩, ⟨RowType.tip, some ⟨400, 2⟩⟩,
       ⟨RowType.creditSale, some ⟨500, 2⟩⟩] ∧
    (⟨RowType.creditSale, some ⟨500, 2⟩⟩ : Row) ∈
      extractS "Total US$ 1.00 Tip US$ 2.00 Total US$ 3.00 Tip US$ 4.00 Total US$ 5.00" ∧
    dval ⟨500, 2⟩ = 5 := by
  refine ⟨by decide, by decide, by norm_num [dval]⟩

/-- C1 (amended): Strategy A iterates i up to the larger of the two list
lengths, emitting at each i a sale row when a total exists and then a tip row
when a tip exists; with totals [a, b, c] and tips [d, e] the result is five
rows in interleaved order and the surplus total c is kept, not dropped. -/
theorem C1_pairing_amended (a b c d e : Option Dec) :
    buildRows [a, b, c] [d, e] =
      [⟨RowType.creditSale, fix2 a⟩, ⟨RowType.tip, fix2 d⟩, ⟨RowType.creditSale, fix2 b⟩,
       ⟨RowType.tip, fix2 e⟩, ⟨RowType.creditSale, fix2 c⟩] := by
  rfl

/-- C2 counterexample: on a text with one total and no tips, Strategy A yields
zero pairs (the shorter list is empty), yet the fallback is not consulted: the
result is the Strategy A row, and the fallback would have produced nothing. -/
theorem C2_counterexample :
    (scanTotals "Total US$ 5.00".toList).length = 1 ∧
    (scanTips "Total US$ 5.00".toList).length = 0 ∧
    extractS "Total US$ 5.00" = [⟨RowType.creditSale, some ⟨500, 2⟩⟩] ∧
    strategyB "Total US$ 5.00".toList = [] := by
  decide

/-- C2 (amended): the keyword-line fallback runs if and only if both the
totals list and the tips list of Strategy A are empty; whenever at least one
of them is non-empty, the interleaved Strategy A rows are the whole result. -/
theorem C2_fallback_amended (text : List Char) :
    (scanTotals text = [] ∧ scanTips text = [] → extractL text = strategyB text) ∧
    ((scanTotals text ≠ [] ∨ scanTips text ≠ []) →
      extractL text =
        buildRows ((scanTotals text).map moneyToFloat) ((scanTips text).map moneyToFloat)) := by
  refine ⟨fun h => ?_, fun h => ?_⟩
  · simp [extractL, h.1, h.2]
  · rcases h with h | h <;> simp [extractL, List.length_pos.mpr h]

/-- Witness for the amended C2 on concrete inputs exercising both branches. -/
theorem C2_fallback_amended_witness :
    extractL "hello".toList = strategyB "hello".toList ∧
    extractL "Total US$ 5.00".toList =
      buildRows ((scanTotals "Total US$ 5.00".toList).map moneyToFloat)
        ((scanTips "Total US$ 5.00".toList).map moneyToFloat) :=
  ⟨(C2_fallback_amended "hello".toList).1 (by decide),
   (C2_fallback_amended "Total US$ 5.00".toList).2 (Or.inl (by decide))⟩

/-- C3 counterexample: a bare dollar marker or no marker at all does not match
Strategy A, contrary to the claim that "Total $45.00" and "Total 45.00" yield
a total match. -/
theorem C3_counterexample :
    scanTotals "Total $45.00".toList = [] ∧ scanTotals "Total 45.00".toList = [] := by
  decide

/-- C3 (amended): the Strategy A patterns require the literal us after the
label, with only the dollar sign optional: "US$" and "US" markers match
(case-insensitively, whitespace-tolerantly, with a two-fraction-digit
numeral), while a bare "$" or no marker yields no match. -/
theorem C3_pattern_amended :
    scanTotals "Total US$ 45.00".toList = ["45.00".toList] ∧
    scanTotals "Total US 45.00".toList = ["45.00".toList] ∧
    scanTotals "total us$45.00".toList = ["45.00".toList] ∧
    scanTotals "Total $45.00".toList = [] ∧
    scanTotals "Total 45.00".toList = [] ∧
    scanTips "Tip US$ 3.00".toList = ["3.00".toList] ∧
    scanTips "tIp us 3.00".toList = ["3.00".toList] ∧
    scanTips "Tip $3.00".toList = [] := by
  decide

/-- C4: the claim matches the stated intent of the source comment "If nothing
was found, set noDataFound to true", but the check reads the stale closure
value of ccData instead of the row list just computed, so on a text that
produces one row the flag is still set. The empty-text part of the claim does
hold. -/
theorem C4_code_bug :
    (runHandler [] "Total US$ 5.00".toList).ccData = [⟨RowType.creditSale, some ⟨500, 2⟩⟩] ∧
    (runHandler [] "Total US$ 5.00".toList).noDataFound = true ∧
    (runHandler [] "".toList).ccData = [] ∧
    (runHandler [] "".toList).noDataFound = true := by
  decide

/-- C5 counterexample: the numeral "..45" is matchable by the Strategy A total
pattern, and moneyToFloat turns it into NaN (none), not into the claimed
fallback value 0.0. -/
theorem C5_counterexample :
    scanTotals "Total US ..45".toList = ["..45".toList] ∧
    moneyToFloat "..45".toList = none := by
  decide

/-- C5 (amended): normalization strips dollar signs and commas and trims; the
value 0.0 is substituted only when the stripped string is empty, otherwise the
string goes to parseFloat, which yields NaN (none) when no decimal prefix
exists, as for "..45"; "1,234.56" does normalize to 1234.56. -/
theorem C5_normalize_amended :
    moneyToFloat "1,234.56".toList = some ⟨123456, 2⟩ ∧
    dval ⟨123456, 2⟩ = 123456 / 100 ∧
    moneyToFloat "$1,234.56".toList = some ⟨123456, 2⟩ ∧
    moneyToFloat "".toList = some ⟨0, 0⟩ ∧
    moneyToFloat "  ".toList = some ⟨0, 0⟩ ∧
    moneyToFloat "..45".toList = none := by
  refine ⟨by decide, by norm_num [dval], by decide, by decide, by decide, by decide⟩

/-- C6 counterexample: in the qualifying line "Tip -5.00" the numeral is
immediately preceded by a minus sign, yet the extraction produces a record
with amount 5.00: Strategy B's token pattern skips the sign and matches the
digits. -/
theorem C6_counterexample :
    extractS "Tip -5.00" = [⟨RowType.tip, some ⟨500, 2⟩⟩] ∧ dval ⟨500, 2⟩ = 5 := by
  refine ⟨by decide, by norm_num [dval]⟩

/-- C6 (amended): the Strategy A patterns reject signed numerals outright, but
Strategy B's money token pattern starts at the digits, so a numeral preceded
by a minus sign still contributes a record carrying the unsigned amount. -/
theorem C6_negative_amended :
    scanTotals "Total US$ -5.00".toList = [] ∧
    scanTips "Tip US$ -5.00".toList = [] ∧
    extractS "Tip -5.00" = [⟨RowType.tip, some ⟨500, 2⟩⟩] := by
  decide

/-- The cut position chosen for the capture group carries a dot. -/
theorem findDotK_dot {r : List Char} {k : Nat} (h : findDotK r = some k) :
    r.get? k = some '.' := by
  have hp := List.find?_some h
  simp only [Bool.and_eq_true, beq_iff_eq, decide_eq_true_eq] at hp
  exact hp.1.1.2

/-- A captured Strategy A numeral always contains a decimal point. -/
theorem matchLabelNumAt_dot {label s g rest : List Char}
    (h : matchLabelNumAt label s = some (g, rest)) : '.' ∈ g := by
  unfold matchLabelNumAt at h
  cases h1 : dropLitCI label s with
  | none => simp only [h1] at h; exact Option.noConfusion h
  | some s1 =>
    simp only [h1] at h
    cases h2 : dropLitCI ['u', 's'] (s1.dropWhile isWs) with
    | none => simp only [h2] at h; exact Option.noConfusion h
    | some s3 =>
      simp only [h2] at h
      cases h3 : findDotK (((dropOptDollar s3).dropWhile isWs).takeWhile isMoneyCls) with
      | none => simp only [h3] at h; exact Option.noConfusion h
      | some k =>
        simp only [h3, Option.some.injEq, Prod.mk.injEq] at h
        obtain ⟨hg, -⟩ := h
        have hdot := findDotK_dot h3
        have hk : ((((dropOptDollar s3).dropWhile isWs).takeWhile isMoneyCls).take (k+3))[k]?
            = some '.' := by
          rw [List.getElem?_take_of_lt (by omega), ← List.get?_eq_getElem?]
          exact hdot
        exact hg ▸ List.getElem?_mem hk

/-- Every numeral the fuelled Strategy A scanner emits contains a dot. -/
theorem scanLabelAux_dot (label : List Char) :
    ∀ (n : Nat) (s g : List Char), g ∈ scanLabelAux label n s → '.' ∈ g := by
  intro n
  induction n with
  | zero => intro s g hg; simp [scanLabelAux] at hg
  | succ n ih =>
    intro s g hg
    cases s with
    | nil => simp [scanLabelAux] at hg
    | cons c cs =>
      cases hm : matchLabelNumAt label (c :: cs) with
      | none =>
        simp only [scanLabelAux, hm] at hg
        exact ih cs g hg
      | some p =>
        obtain ⟨g0, rest⟩ := p
        simp only [scanLabelAux, hm] at hg
        rcases List.mem_cons.mp hg with hg | hg
        · exact hg ▸ matchLabelNumAt_dot hm
        · exact ih rest g hg

/-- C7: under Strategy B, every record of a line containing the tip keyword is
classified as a tip, even when other keywords such as card also occur in the
line, and every record of a qualifying line without the tip keyword is
classified as a sale; the line "Tip on Card: $3.00" (which contains both tip
and card) yields the single tip record with amount 3.00. -/
theorem C7_classification :
    (∀ (line : List Char) (r : Row), r ∈ lineRecords line →
      r.type = (if isTipL line then RowType.tip else RowType.creditSale)) ∧
    lineRecords "Tip on Card: $3.00".toList = [⟨RowType.tip, some ⟨300, 2⟩⟩] ∧
    isTipL "Tip on Card: $3.00".toList = true ∧
    containsSub ("card".toList) (lowerL "Tip on Card: $3.00".toList) = true ∧
    extractS "Tip on Card: $3.00" = [⟨RowType.tip, some ⟨300, 2⟩⟩] ∧
    dval ⟨300, 2⟩ = 3 := by
  refine ⟨?_, by decide, by decide, by decide, by decide, by norm_num [dval]⟩
  intro line r hr
  unfold lineRecords at hr
  by_cases hq : qualifies line = true
  · rw [if_pos hq] at hr
    obtain ⟨m, hm, rfl⟩ := List.mem_map.mp hr
    rfl
  · rw [if_neg hq] at hr
    cases hr

/-- Witness for C7 at the concrete line of the claim. -/
theorem C7_classification_witness :
    (⟨RowType.tip, some ⟨300, 2⟩⟩ : Row).type =
      (if isTipL "Tip on Card: $3.00".toList then RowType.tip else RowType.creditSale) :=
  C7_classification.1 "Tip on Card: $3.00".toList ⟨RowType.tip, some ⟨300, 2⟩⟩ (by decide)

/-- Adding two finite decimals over a common scale adds their values. -/
theorem dval_add (a b : Dec) :
    dval ⟨a.m * 10 ^ b.e + b.m * 10 ^ a.e, a.e + b.e⟩ = dval a + dval b := by
  unfold dval
  have h1 : ((10 : ℚ) ^ a.e) ≠ 0 := pow_ne_zero _ (by norm_num)
  have h2 : ((10 : ℚ) ^ b.e) ≠ 0 := pow_ne_zero _ (by norm_num)
  push_cast
  rw [pow_add]
  field_simp

/-- Folding the NaN-propagating addition from a finite accumulator over a list
of finite amounts stays finite and adds up the values. -/
theorem foldl_addJs_sum :
    ∀ (l : List (Option Dec)) (q : Dec), (∀ a ∈ l, a.isSome) →
      ∃ d : Dec, l.foldl addJs (some q) = some d ∧
        dval d = dval q + ((l.filterMap id).map dval).sum := by
  intro l
  induction l with
  | nil => exact fun q _ => ⟨q, rfl, by simp⟩
  | cons a t ih =>
    intro q h
    obtain ⟨av, rfl⟩ := Option.isSome_iff_exists.mp (h a (List.mem_cons_self a t))
    obtain ⟨d, hd, hv⟩ :=
      ih ⟨q.m * 10 ^ av.e + av.m * 10 ^ q.e, q.e + av.e⟩ (fun x hx => h x (List.mem_cons_of_mem _ hx))
    refine ⟨d, ?_, ?_⟩
    · simpa [addJs] using hd
    · rw [hv, dval_add]
      simp only [List.filterMap_cons, id, List.map_cons, List.sum_cons]
      ring

/-- C8: the aggregator returns the sum of the values of the sale amounts and
the sum of the values of the tip amounts, and the empty row list yields zero
for both. Amounts are required finite (not NaN), as every claim-level record
amount is. -/
theorem C8_aggregation (rows : List Row) (h : ∀ r ∈ rows, (Row.amount r).isSome) :
    (∃ s : Dec, totalSales rows = some s ∧
      dval s = (((rows.filter (fun r => decide (r.type = RowType.creditSale))).filterMap
          Row.amount).map dval).sum) ∧
    (∃ t : Dec, totalTips rows = some t ∧
      dval t = (((rows.filter (fun r => decide (r.type = RowType.tip))).filterMap
          Row.amount).map dval).sum) ∧
    totalSales [] = some ⟨0, 0⟩ ∧ totalTips [] = some ⟨0, 0⟩ := by
  refine ⟨?_, ?_, by decide, by decide⟩
  · have hall : ∀ a ∈ (rows.filter
        (fun r => decide (r.type = RowType.creditSale))).map Row.amount, a.isSome := by
      intro a ha
      obtain ⟨r, hr, rfl⟩ := List.mem_map.mp ha
      exact h r (List.mem_of_mem_filter hr)
    obtain ⟨d, hd, hv⟩ := foldl_addJs_sum _ ⟨0, 0⟩ hall
    refine ⟨d, hd, ?_⟩
    rw [hv]
    simp [dval, List.filterMap_map, Function.comp]
  · have hall : ∀ a ∈ (rows.filter
        (fun r => decide (r.type = RowType.tip))).map Row.amount, a.isSome := by
      intro a ha
      obtain ⟨r, hr, rfl⟩ := List.mem_map.mp ha
      exact h r (List.mem_of_mem_filter hr)
    obtain ⟨d, hd, hv⟩ := foldl_addJs_sum _ ⟨0, 0⟩ hall
    refine ⟨d, hd, ?_⟩
    rw [hv]
    simp [dval, List.filterMap_map, Function.comp]

/-- Witness for C8 on the P6 example rows: sales sum to 30, tips to 4.50. -/
theorem C8_aggregation_witness :
    (∃ s : Dec, totalSales exampleRows = some s ∧ dval s = 30) ∧
    (∃ t : Dec, totalTips exampleRows = some t ∧ dval t = 9 / 2) := by
  obtain ⟨⟨s, hs, hsv⟩, ⟨t, ht, htv⟩, -, -⟩ := C8_aggregation exampleRows (by decide)
  refine ⟨⟨s, hs, ?_⟩, ⟨t, ht, ?_⟩⟩
  · rw [hsv]
    simp [exampleRows]
    norm_num [dval]
  · rw [htv]
    simp [exampleRows]
    norm_num [dval]

/-- C9: every numeral captured by a Strategy A scan (total or tip) contains a
decimal point, so an integer numeral never produces a Strategy A match, while
Strategy B's token pattern accepts the bare integer 45 and stores it as
45.00. -/
theorem C9_integer_amounts :
    (∀ (text g : List Char), g ∈ scanTotals text → '.' ∈ g) ∧
    (∀ (text g : List Char), g ∈ scanTips text → '.' ∈ g) ∧
    scanTotals "Total US$ 45".toList = [] ∧
    scanTips "Tip US 45".toList = [] ∧
    lineRecords "Card 45".toList = [⟨RowType.creditSale, some ⟨4500, 2⟩⟩] ∧
    dval ⟨4500, 2⟩ = 45 := by
  refine ⟨fun text g hg => scanLabelAux_dot _ _ _ g hg,
    fun text g hg => scanLabelAux_dot _ _ _ g hg, by decide, by decide, by decide,
    by norm_num [dval]⟩

/-- Witness for C9 at a concrete scan. -/
theorem C9_integer_amounts_witness :
    ("1.00".toList ∈ scanTotals "Total US 1.00".toList) ∧ '.' ∈ "1.00".toList :=
  ⟨by decide, C9_integer_amounts.1 "Total US 1.00".toList "1.00".toList (by decide)⟩

/-- Folding pushes of f x onto an accumulator concatenates the images. -/
theorem foldl_append_flatten {α β : Type} (f : α → List β) (l : List α) :
    ∀ init : List β, l.foldl (fun acc x => acc ++ f x) init = init ++ (l.map f).flatten := by
  induction l with
  | nil => intro init; simp
  | cons a t ih => intro init; rw [List.foldl_cons, ih]; simp [List.append_assoc]

/-- The first Strategy B loop collects, per line in order, its entry list. -/
theorem collectResults_aux (lines : List (List Char)) :
    ∀ init : List BEntry,
      lines.foldl (fun acc line =>
        if qualifies line then
          let ms := scanMoney line
          if ms.isEmpty then acc
          else acc ++ [{ lineText := line
                         amounts := ms.map (fun m => jsParseFloat (removeFirstDollar m))
                         tipLine := isTipL line }]
        else acc) init = init ++ (lines.map entryListOf).flatten := by
  induction lines with
  | nil => intro init; simp
  | cons l t ih =>
    intro init
    rw [List.foldl_cons, ih]
    by_cases hq : qualifies l = true
    · by_cases he : (scanMoney l).isEmpty = true
      · simp [entryListOf, hq, he, List.append_assoc]
      · simp [entryListOf, hq, he, List.append_assoc]
    · simp [entryListOf, hq]

/-- The imperative first loop equals the per-line entry lists, flattened. -/
theorem collectResults_eq (lines : List (List Char)) :
    collectResults lines = (lines.map entryListOf).flatten := by
  unfold collectResults
  simpa using collectResults_aux lines []

/-- The whole of Strategy B as flattened per-entry rows. -/
theorem strategyB_eq (text : List Char) :
    strategyB text = (((linesOf text).map entryListOf).flatten.map rowsOfEntry).flatten := by
  unfold strategyB
  rw [collectResults_eq]
  simpa [rowsOfEntry] using
    foldl_append_flatten rowsOfEntry (((linesOf text).map entryListOf).flatten) []

/-- Per line, the two-loop contribution equals the declarative record list. -/
theorem entry_rows_eq (line : List Char) :
    ((entryListOf line).map rowsOfEntry).flatten = lineRecords line := by
  unfold entryListOf lineRecords rowsOfEntry
  by_cases hq : qualifies line = true
  · by_cases he : (scanMoney line).isEmpty = true
    · have hnil : scanMoney line = [] := by
        cases hs : scanMoney line with
        | nil => rfl
        | cons x xs => rw [hs] at he; cases he
      simp [hq, he, hnil]
    · simp [hq, he, List.map_map, Function.comp]
  · simp [hq]

/-- C10: Strategy B preserves source order: its output is exactly the
concatenation, over the trimmed non-empty lines in the order they appear, of
each qualifying line's money tokens in left-to-right order, one record per
token. -/
theorem C10_order (text : List Char) :
    strategyB text = ((linesOf text).map lineRecords).flatten := by
  rw [strategyB_eq, List.map_flatten, List.flatten_flatten, List.map_map, List.map_map]
  congr 1
  refine List.map_congr_left (fun l _ => ?_)
  simpa [Function.comp] using entry_rows_eq l

end HdlOcr

